import Mathlib

/-!
# Verification of the configurable filter/sort pipeline of `database-reader-sql`

This file embeds, as executable Lean definitions, the filter/sort engine of
the browser-resident SQLite viewer: the free-text search, the per-column
include/exclude tag filters, the typed sort comparator and the tag-filter
state handlers found in the React `App` component (`src/unnamed/part_001`).

Cell values coming from the SQL engine are modelled as `Option String`
(`none` models both SQL `NULL` and a missing field, which behave identically
under every operation the pipeline applies: `|| ""`, truthiness tests,
`Number(...)`, `new Date(...)`).  JavaScript string builtins used by the
pipeline (`toLowerCase`, `trim`, `split(",")`, `includes`) are modelled over
`List Char`, with `toLowerCase` restricted to ASCII.
-/

/-- Models JS `String.prototype.toLowerCase` on one character (ASCII range). -/
def charLower (c : Char) : Char :=
  if 65 ≤ c.toNat ∧ c.toNat ≤ 90 then Char.ofNat (c.toNat + 32) else c

/-- Models JS `toLowerCase` over the character list of a string. -/
def toLowerL (l : List Char) : List Char := l.map charLower

/-- Models JS `s.toLowerCase()`. -/
def lowerStr (s : String) : String := String.mk (toLowerL s.data)

/-- Whitespace recognised by the model of JS `trim`. -/
def isSpaceC (c : Char) : Bool := c == ' ' || c == '\t' || c == '\n' || c == '\r'

/-- Models JS `s.trim()` over a character list. -/
def trimL (l : List Char) : List Char :=
  ((l.dropWhile isSpaceC).reverse.dropWhile isSpaceC).reverse

/-- Models JS `s.split(",")` over a character list (`"".split(",")` is `[""]`). -/
def splitCommaL : List Char → List (List Char)
  | [] => [[]]
  | c :: rest =>
    match splitCommaL rest with
    | [] => [[c]]
    | h :: t => if c = ',' then [] :: h :: t else (c :: h) :: t

/-- Boolean list-prefix test used by the substring model. -/
def isPrefixB : List Char → List Char → Bool
  | [], _ => true
  | _ :: _, [] => false
  | a :: as, b :: bs => a == b && isPrefixB as bs

/-- Models JS `hay.includes(needle)` (substring containment) on char lists. -/
def containsSubL (hay needle : List Char) : Bool :=
  (List.range (hay.length + 1)).any (fun i => isPrefixB needle (hay.drop i))

/-- Models JS `hay.includes(needle)` on strings. -/
def containsSub (hay needle : String) : Bool := containsSubL hay.data needle.data

/-- JS truthiness of a string-or-null value: `null`/`undefined` and `""` are falsy. -/
def truthy : Option String → Bool
  | none => false
  | some s => !(s == "")

/-- Models the JS expression `val || d` on a string-or-null value. -/
def jsOr (val : Option String) (d : String) : String :=
  match val with
  | none => d
  | some s => if s == "" then d else s

/-- Digit-list to number, most significant first. -/
def digitsToNat (l : List Char) : Nat :=
  l.foldl (fun acc c => acc * 10 + (c.toNat - 48)) 0

/-- All characters are decimal digits. -/
def allDigits (l : List Char) : Bool := l.all (fun c => 48 ≤ c.toNat && c.toNat ≤ 57)

/-- Models the JS `Number(s)` coercion restricted to optional-sign decimal
integer strings (the shapes the pipeline's numeric columns produce):
whitespace-only gives `0`, a decimal integer its value, anything else `none`
(JS `NaN`). -/
def jsNumOpt (s : String) : Option Int :=
  let t := trimL s.data
  if t.isEmpty then some 0
  else
    match t with
    | '-' :: ds => if !ds.isEmpty && allDigits ds then some (-(digitsToNat ds : Int)) else none
    | ds => if allDigits ds then some ((digitsToNat ds : Int)) else none

/-- Models `Number(val) || 0` from `getSortValue`: `NaN` (and `null`) collapse to `0`. -/
def jsNumberOr0 (val : Option String) : Int :=
  match val with
  | none => 0
  | some s => (jsNumOpt s).getD 0

/-- Models the JS `new Date(s)` constructor restricted to ISO `YYYY-MM-DD`
strings (the only shape the configured queries produce, via
`SUBSTR(json_extract(...), 1, 10)`).  A valid date yields a timestamp encoded
as `y*10000 + m*100 + d`, which is order-isomorphic to the epoch
milliseconds; any other string yields `none`, modelling an Invalid Date
whose time value is `NaN`. -/
def jsDate (s : String) : Option Int :=
  match s.data with
  | [y1, y2, y3, y4, '-', m1, m2, '-', d1, d2] =>
    if allDigits [y1, y2, y3, y4] && allDigits [m1, m2] && allDigits [d1, d2] then
      let y := digitsToNat [y1, y2, y3, y4]
      let m := digitsToNat [m1, m2]
      let d := digitsToNat [d1, d2]
      if 1 ≤ m && m ≤ 12 && 1 ≤ d && d ≤ 31 then
        some ((y * 10000 + m * 100 + d : Nat) : Int)
      else none
    else none
  | _ => none

/-- A row as returned by `stmt.getAsObject()`: a record of nullable string
cells keyed by column name.  A missing key and a `null` cell are conflated
(JS `undefined` and `null` behave identically in the pipeline). -/
abbrev Row := List (String × Option String)

/-- Models `item[col]` on a row. -/
def rowGet (r : Row) (k : String) : Option String :=
  match r.find? (fun p => p.1 == k) with
  | some p => p.2
  | none => none

/-- Models `(item[col] || "")`, the cell text the taggable filters operate on. -/
def cellOf (r : Row) (k : String) : String := (rowGet r k).getD ""

/-- One configured column (`{ field, header, type, ... }`); the renderers are
irrelevant to the pipeline and omitted. -/
structure Column where
  field : String
  type : String
  deriving DecidableEq

/-- The part of the configuration object the filter/sort engine reads. -/
structure Config where
  textSearchColumn : String
  taggableColumns : List String
  columns : List Column
  deriving DecidableEq

/-- Per-column tag-filter state `{ include: [...], exclude: [...] }`
(source field names `include`/`exclude`; renamed `inc`/`exc` because
`include` is a Lean keyword). -/
structure FilterState where
  inc : List String
  exc : List String
  deriving DecidableEq

/-- The `taggableFilters` state object, as an entry list in key insertion
order (JS object keys are unique; `Object.entries` iterates in insertion
order). -/
abbrev TagFilters := List (String × FilterState)

/-- The comma-split, trimmed, lowercased value list of a cell:
`(item[col] || "").split(",").map(v => v.trim().toLowerCase())`. -/
def splitVals (s : String) : List String :=
  (splitCommaL s.data).map (fun p => String.mk (toLowerL (trimL p)))

/-- The include predicate:
`include.every(v => itemValues.includes(v.toLowerCase()))`. -/
def includePass (inc : List String) (cellv : String) : Bool :=
  inc.all (fun v => (splitVals cellv).contains (lowerStr v))

/-- The exclude predicate:
`!exclude.some(v => itemValues.includes(v.toLowerCase()))`. -/
def excludePass (exc : List String) (cellv : String) : Bool :=
  !(exc.any (fun v => (splitVals cellv).contains (lowerStr v)))

/-- The `if (include.length > 0) filtered = filtered.filter(...)` step. -/
def includeStep (col : String) (inc : List String) (rows : List Row) : List Row :=
  if inc.length > 0 then rows.filter (fun item => includePass inc (cellOf item col)) else rows

/-- The `if (exclude.length > 0) filtered = filtered.filter(...)` step. -/
def excludeStep (col : String) (exc : List String) (rows : List Row) : List Row :=
  if exc.length > 0 then rows.filter (fun item => excludePass exc (cellOf item col)) else rows

/-- The `for (const [col, { include, exclude }] of Object.entries(taggableFilters))`
loop over the per-column filters. -/
def applyTagFilters : TagFilters → List Row → List Row
  | [], rows => rows
  | (col, f) :: rest, rows =>
    applyTagFilters rest (excludeStep col f.exc (includeStep col f.inc rows))

/-- The free-text predicate on one row:
`(item[textSearchColumn] || "").toLowerCase().includes(searchName.toLowerCase())`. -/
def textPass (cfg : Config) (searchName : String) (item : Row) : Bool :=
  containsSub (lowerStr (cellOf item cfg.textSearchColumn)) (lowerStr searchName)

/-- The `if (searchName && config.textSearchColumn) filtered = filtered.filter(...)`
step (an undefined `textSearchColumn` is modelled as `""`, equally falsy). -/
def textFilter (cfg : Config) (searchName : String) (rows : List Row) : List Row :=
  if searchName != "" && cfg.textSearchColumn != "" then
    rows.filter (textPass cfg searchName)
  else rows

/-- The typed comparison domain produced by `getSortValue`: a `Date` object
(whose time value is `none` for an Invalid Date, modelling `NaN`), a number,
or a string. -/
inductive SortValue
  | date (t : Option Int)
  | num (x : Int)
  | str (s : String)
  deriving DecidableEq

/-- Models the JS `<` relational comparison on two sort values of the same
kind (the pipeline only ever compares values produced with the same column
type).  A comparison involving an Invalid Date (`NaN` time value) is false,
as in JS. -/
def svLt : SortValue → SortValue → Bool
  | .date (some x), .date (some y) => decide (x < y)
  | .num a, .num b => decide (a < b)
  | .str a, .str b => decide (a < b)
  | _, _ => false

/-- The `getSortValue(val, type)` helper of the source. -/
def getSortValue (val : Option String) (type : String) : SortValue :=
  if type == "date" then .date (jsDate (jsOr val "1970-01-01"))
  else if type == "number" then .num (jsNumberOr0 val)
  else if type == "boolean" then .num (if truthy val then 1 else 0)
  else .str (jsOr val "")

/-- `const col = config.columns.find(c => c.field === sortField);
const type = col ? col.type : "text";` -/
def colType (cfg : Config) (sortField : String) : String :=
  match cfg.columns.find? (fun c => c.field == sortField) with
  | some c => c.type
  | none => "text"

/-- The sort key of a row for the configured sort field. -/
def sortKey (cfg : Config) (sortField : String) (r : Row) : SortValue :=
  getSortValue (rowGet r sortField) (colType cfg sortField)

/-- The comparator passed to `filtered.sort((a, b) => ...)`:
`-1`/`1`/`0` by `<`/`>` on the typed sort values, with the signs swapped for
`sortDirection !== "asc"`. -/
def rowCompare (cfg : Config) (sortField sortDirection : String) (a b : Row) : Int :=
  let valA := sortKey cfg sortField a
  let valB := sortKey cfg sortField b
  if svLt valA valB then (if sortDirection == "asc" then -1 else 1)
  else if svLt valB valA then (if sortDirection == "asc" then 1 else -1)
  else 0

/-- Insertion of `x` into `l` for an element `x` that originally precedes
everything in `l`: `x` goes after exactly those elements `y` that the
comparator orders strictly earlier (`lt y x`), and before every element tied
with it, preserving the original order of ties. -/
def insertOrd {α : Type} (lt : α → α → Bool) (x : α) : List α → List α
  | [] => [x]
  | y :: ys => if lt y x then y :: insertOrd lt x ys else x :: y :: ys

/-- Stable insertion sort modelling `Array.prototype.sort` with a comparator
(stable as of ES2019): later elements are sorted first and each earlier
element is inserted in front of everything the comparator does not place
strictly before it, so tied elements keep their original order. -/
def insertSort {α : Type} (lt : α → α → Bool) : List α → List α
  | [] => []
  | x :: xs => insertOrd lt x (insertSort lt xs)

/-- The `filtered.sort((a, b) => ...)` step of the pipeline: an element is
moved before another exactly when the comparator returns a negative value. -/
def sortRows (cfg : Config) (sortField sortDirection : String) (rows : List Row) : List Row :=
  insertSort (fun a b => decide (rowCompare cfg sortField sortDirection a b < 0)) rows

/-- The whole filtering `useEffect` body: text filter, then the per-column
taggable filters, then the sort, starting from a copy `[...data]` of the
loaded row set. -/
def produceView (cfg : Config) (searchName : String) (tf : TagFilters)
    (sortField sortDirection : String) (data : List Row) : List Row :=
  sortRows cfg sortField sortDirection (applyTagFilters tf (textFilter cfg searchName data))

/-- The component state touched by the filtering effect. -/
structure AppState where
  data : List Row
  filteredData : List Row
  searchName : String
  taggableFilters : TagFilters
  sortField : String
  sortDirection : String
  config : Config

/-- The filtering `useEffect`: it reads `data` (copying it with `[...data]`
before the in-place `sort`) and only writes `filteredData` via
`setFilteredData`. -/
def filterEffect (st : AppState) : AppState :=
  { st with
    filteredData :=
      produceView st.config st.searchName st.taggableFilters
        st.sortField st.sortDirection st.data }

/-- `filters[col]` lookup in the `taggableFilters` object. -/
def lookupTF (tf : TagFilters) (col : String) : Option FilterState :=
  (tf.find? (fun p => p.1 == col)).map (fun p => p.2)

/-- Write `filters[col] = f`: replace the existing entry in place, or append
a new key in insertion order. -/
def assocSet : TagFilters → String → FilterState → TagFilters
  | [], col, f => [(col, f)]
  | (c, f0) :: rest, col, f =>
    if c == col then (col, f) :: rest else (c, f0) :: assocSet rest col f

/-- `handleAddTaggableFilter(col, value, type)`: ignores falsy values,
creates the column entry on demand, and pushes the value onto the matching
list only when it is not already present. -/
def handleAddTaggableFilter (tf : TagFilters) (col value type : String) : TagFilters :=
  if value == "" then tf
  else
    let f := (lookupTF tf col).getD ⟨[], []⟩
    let f' :=
      if type == "include" && !(f.inc.contains value) then
        { f with inc := f.inc ++ [value] }
      else if type == "exclude" && !(f.exc.contains value) then
        { f with exc := f.exc ++ [value] }
      else f
    assocSet tf col f'

/-- `handleRemoveTaggableFilter(col, value, type)`: filters every occurrence
of the value out of the matching list.  (On a column with no entry the
source throws a `TypeError`; that path is modelled as a no-op and no claim
depends on it.) -/
def handleRemoveTaggableFilter (tf : TagFilters) (col value type : String) : TagFilters :=
  match lookupTF tf col with
  | none => tf
  | some f =>
    let f' :=
      if type == "include" then { f with inc := f.inc.filter (fun v => v != value) }
      else { f with exc := f.exc.filter (fun v => v != value) }
    assocSet tf col f'

/-- One user interaction with the taggable-filter state. -/
inductive FilterOp
  | add (col value type : String)
  | remove (col value type : String)

/-- Apply one interaction. -/
def applyFilterOp (tf : TagFilters) : FilterOp → TagFilters
  | .add c v t => handleAddTaggableFilter tf c v t
  | .remove c v t => handleRemoveTaggableFilter tf c v t

/-- Apply a sequence of interactions. -/
def applyFilterOps (ops : List FilterOp) (tf : TagFilters) : TagFilters :=
  ops.foldl applyFilterOp tf

/-- The state `applyConfig` initialises:
`Object.fromEntries(taggableColumns.map(col => [col, { include: [], exclude: [] }]))`. -/
def initFilters (cols : List String) : TagFilters :=
  cols.map (fun c => (c, ⟨[], []⟩))

/-- Every per-column include and exclude list is duplicate-free. -/
def FiltersNodup (tf : TagFilters) : Prop :=
  ∀ p ∈ tf, p.2.inc.Nodup ∧ p.2.exc.Nodup

/-- Sign comparison of two integers, following the claim's words
"compares them as numbers". -/
def cmpInt (a b : Int) : Int := if a < b then -1 else if b < a then 1 else 0

/-- Comparison of two strings, following the claim's words
"compares them as strings". -/
def cmpStr (a b : String) : Int := if a < b then -1 else if b < a then 1 else 0

/-- Comparison of two date time-values, following the claim's words
"compares them as dates" (an Invalid Date compares neither way). -/
def cmpDate : Option Int → Option Int → Int
  | some a, some b => if a < b then -1 else if b < a then 1 else 0
  | _, _ => 0

/-- Spec-side description of the claim C4: "a null/empty value standing in
as '1970-01-01'". -/
def specDateInput (v : Option String) : String :=
  match v with
  | none => "1970-01-01"
  | some s => if s = "" then "1970-01-01" else s

/-- Spec-side comparison for claim C4, written from the claim's words: date
columns compare as dates with the `1970-01-01` fallback, number columns as
numbers with non-numerics as `0`, boolean columns as `1`/`0` by truthiness,
anything else as strings with null as `""`. -/
def specCompare (type : String) (va vb : Option String) : Int :=
  if type = "date" then cmpDate (jsDate (specDateInput va)) (jsDate (specDateInput vb))
  else if type = "number" then cmpInt (jsNumberOr0 va) (jsNumberOr0 vb)
  else if type = "boolean" then
    cmpInt (if truthy va then 1 else 0) (if truthy vb then 1 else 0)
  else cmpStr (va.getD "") (vb.getD "")

/-! ## Permutation and membership infrastructure for the sort model -/

theorem insertOrd_perm {α : Type} (lt : α → α → Bool) (x : α) :
    ∀ l : List α, (insertOrd lt x l).Perm (x :: l) := by
  intro l
  induction l with
  | nil => simp [insertOrd]
  | cons y ys ih =>
    simp only [insertOrd]
    by_cases h : lt y x
    · simp only [h, if_pos]
      exact ((ih.cons y).trans (List.Perm.swap x y ys))
    · simp [h]

theorem insertSort_perm {α : Type} (lt : α → α → Bool) :
    ∀ l : List α, (insertSort lt l).Perm l := by
  intro l
  induction l with
  | nil => simp [insertSort]
  | cons x xs ih =>
    exact (insertOrd_perm lt x (insertSort lt xs)).trans (ih.cons x)

theorem mem_insertSort {α : Type} (lt : α → α → Bool) (l : List α) (a : α) :
    a ∈ insertSort lt l ↔ a ∈ l :=
  (insertSort_perm lt l).mem_iff

theorem mem_sortRows (cfg : Config) (sf sd : String) (rows : List Row) (r : Row) :
    r ∈ sortRows cfg sf sd rows ↔ r ∈ rows :=
  mem_insertSort _ rows r

theorem mem_includeStep (col : String) (inc : List String) (rows : List Row) (r : Row) :
    r ∈ includeStep col inc rows ↔
      r ∈ rows ∧ (inc ≠ [] → includePass inc (cellOf r col) = true) := by
  unfold includeStep
  by_cases h : inc.length > 0
  · have hne : inc ≠ [] := by
      intro he; subst he; simp at h
    simp [h, List.mem_filter, hne]
  · have he : inc = [] := by
      cases inc with
      | nil => rfl
      | cons a as => simp at h
    subst he; simp

theorem mem_excludeStep (col : String) (exc : List String) (rows : List Row) (r : Row) :
    r ∈ excludeStep col exc rows ↔
      r ∈ rows ∧ (exc ≠ [] → excludePass exc (cellOf r col) = true) := by
  unfold excludeStep
  by_cases h : exc.length > 0
  · have hne : exc ≠ [] := by
      intro he; subst he; simp at h
    simp [h, List.mem_filter, hne]
  · have he : exc = [] := by
      cases exc with
      | nil => rfl
      | cons a as => simp at h
    subst he; simp

theorem mem_applyTagFilters (tf : TagFilters) (rows : List Row) (r : Row) :
    r ∈ applyTagFilters tf rows ↔
      r ∈ rows ∧ ∀ p ∈ tf,
        (p.2.inc ≠ [] → includePass p.2.inc (cellOf r p.1) = true) ∧
        (p.2.exc ≠ [] → excludePass p.2.exc (cellOf r p.1) = true) := by
  induction tf generalizing rows with
  | nil => simp [applyTagFilters]
  | cons p rest ih =>
    obtain ⟨col, f⟩ := p
    rw [applyTagFilters, ih, mem_excludeStep, mem_includeStep]
    constructor
    · rintro ⟨⟨⟨hr, hinc⟩, hexc⟩, hrest⟩
      refine ⟨hr, ?_⟩
      intro q hq
      rcases List.mem_cons.mp hq with h | h
      · subst h; exact ⟨hinc, hexc⟩
      · exact hrest q h
    · rintro ⟨hr, hall⟩
      have hhead := hall (col, f) (List.mem_cons_self _ _)
      exact ⟨⟨⟨hr, hhead.1⟩, hhead.2⟩, fun q hq => hall q (List.mem_cons_of_mem _ hq)⟩

theorem mem_textFilter (cfg : Config) (sn : String) (rows : List Row) (r : Row) :
    r ∈ textFilter cfg sn rows ↔
      r ∈ rows ∧ ((sn ≠ "" ∧ cfg.textSearchColumn ≠ "") → textPass cfg sn r = true) := by
  unfold textFilter
  by_cases h1 : sn = ""
  · simp [h1]
  · by_cases h2 : cfg.textSearchColumn = ""
    · simp [h1, h2]
    · have : (sn != "" && cfg.textSearchColumn != "") = true := by
        simp [h1, h2]
      simp [this, List.mem_filter, h1, h2]

/-- `List.contains` agrees with membership on strings. -/
theorem string_contains_iff (l : List String) (a : String) :
    l.contains a = true ↔ a ∈ l := by
  induction l with
  | nil => simp
  | cons x xs ih =>
    simp only [List.contains_cons, Bool.or_eq_true, beq_iff_eq, ih, List.mem_cons]

/-- Characterisation of the include predicate. -/
theorem includePass_iff (inc : List String) (s : String) :
    includePass inc s = true ↔ ∀ v ∈ inc, lowerStr v ∈ splitVals s := by
  simp [includePass, List.all_eq_true, string_contains_iff]

/-- Characterisation of the exclude predicate. -/
theorem excludePass_iff (exc : List String) (s : String) :
    excludePass exc s = true ↔ ∀ v ∈ exc, lowerStr v ∉ splitVals s := by
  unfold excludePass
  rw [Bool.not_eq_true', List.any_eq_false]
  constructor
  · intro h v hv hmem
    exact h v hv ((string_contains_iff _ _).mpr hmem)
  · intro h v hv hc
    exact h v hv ((string_contains_iff _ _).mp hc)

/-! ## Claims C1, C2, C3, C5: filter composition -/

/-- C1: a row appears in the produced view iff it satisfies the conjunction
of all active predicates — the free-text predicate on the configured
text-search column, the include predicate of every taggable column with a
non-empty include set, and the exclude predicate of every taggable column
with a non-empty exclude set; the three filter classes compose as set
intersection and are applied before sorting (the view is, by construction,
the sort of the filtered set, so sorting does not change membership). -/
theorem mem_produceView_iff (cfg : Config) (sn : String) (tf : TagFilters)
    (sf sd : String) (data : List Row) (r : Row) :
    r ∈ produceView cfg sn tf sf sd data ↔
      r ∈ data ∧
      ((sn ≠ "" ∧ cfg.textSearchColumn ≠ "") → textPass cfg sn r = true) ∧
      ∀ p ∈ tf,
        (p.2.inc ≠ [] → includePass p.2.inc (cellOf r p.1) = true) ∧
        (p.2.exc ≠ [] → excludePass p.2.exc (cellOf r p.1) = true) := by
  unfold produceView
  rw [mem_sortRows, mem_applyTagFilters, mem_textFilter]
  tauto

/-- C2: with a non-empty include set, a row passes that column's include
filter iff for every value `v` of the set, the row's comma-split, trimmed,
lowercased value list for the column contains the lowercased `v` (all
included values must match). -/
theorem includeStep_mem_iff (col : String) (inc : List String) (rows : List Row) (r : Row)
    (h : inc ≠ []) :
    r ∈ includeStep col inc rows ↔
      r ∈ rows ∧ ∀ v ∈ inc, lowerStr v ∈ splitVals (cellOf r col) := by
  rw [mem_includeStep]
  constructor
  · rintro ⟨hr, hp⟩
    exact ⟨hr, (includePass_iff _ _).mp (hp h)⟩
  · rintro ⟨hr, hp⟩
    exact ⟨hr, fun _ => (includePass_iff _ _).mpr hp⟩

/-- C2 witness at a concrete row and include set. -/
theorem includeStep_mem_iff_witness :
    ((["b"] : List String) ≠ []) ∧
      ([("tags", some "a,b")] ∈
          includeStep "tags" ["b"] [[("tags", some "a,b")]] ↔
        [("tags", some "a,b")] ∈ ([[("tags", some "a,b")]] : List Row) ∧
        ∀ v ∈ (["b"] : List String),
          lowerStr v ∈ splitVals (cellOf [("tags", some "a,b")] "tags")) :=
  ⟨by decide, includeStep_mem_iff "tags" ["b"] [[("tags", some "a,b")]] _ (by decide)⟩

/-- C3: with a non-empty exclude set, a row passes that column's exclude
filter iff no value of the set, lowercased, occurs among the row's
comma-split, trimmed, lowercased values for the column. -/
theorem excludeStep_mem_iff (col : String) (exc : List String) (rows : List Row) (r : Row)
    (h : exc ≠ []) :
    r ∈ excludeStep col exc rows ↔
      r ∈ rows ∧ ∀ v ∈ exc, lowerStr v ∉ splitVals (cellOf r col) := by
  rw [mem_excludeStep]
  constructor
  · rintro ⟨hr, hp⟩
    exact ⟨hr, (excludePass_iff _ _).mp (hp h)⟩
  · rintro ⟨hr, hp⟩
    exact ⟨hr, fun _ => (excludePass_iff _ _).mpr hp⟩

/-- C3 witness at a concrete row and exclude set. -/
theorem excludeStep_mem_iff_witness :
    ((["c"] : List String) ≠ []) ∧
      ([("tags", some "a,b")] ∈
          excludeStep "tags" ["c"] [[("tags", some "a,b")]] ↔
        [("tags", some "a,b")] ∈ ([[("tags", some "a,b")]] : List Row) ∧
        ∀ v ∈ (["c"] : List String),
          lowerStr v ∉ splitVals (cellOf [("tags", some "a,b")] "tags")) :=
  ⟨by decide, excludeStep_mem_iff "tags" ["c"] [[("tags", some "a,b")]] _ (by decide)⟩

/-- C5: for a configured (non-empty) text-search column, with a non-empty
term a row passes the text filter iff the lowercased cell value (empty when
null or missing) contains the lowercased term as a substring; with an empty
term every row passes (the filter is the identity). -/
theorem textFilter_spec (cfg : Config) (c sn : String) (rows : List Row)
    (hc : cfg.textSearchColumn = c) (hne : c ≠ "") :
    (sn ≠ "" → ∀ r, r ∈ textFilter cfg sn rows ↔
        r ∈ rows ∧ containsSub (lowerStr (cellOf r c)) (lowerStr sn) = true) ∧
    (sn = "" → textFilter cfg sn rows = rows) := by
  constructor
  · intro hsn r
    rw [mem_textFilter]
    subst hc
    simp [textPass, hsn, hne]
  · intro hsn
    subst hsn
    simp [textFilter]

/-- C5 witness: the term `"LL"` matches the cell `"Hello"` case-insensitively. -/
theorem textFilter_spec_witness :
    (Config.mk "file" [] []).textSearchColumn = "file" ∧ ("file" : String) ≠ "" ∧
      (("LL" : String) ≠ "" → ∀ r,
        r ∈ textFilter ⟨"file", [], []⟩ "LL" [[("file", some "Hello")]] ↔
          r ∈ ([[("file", some "Hello")]] : List Row) ∧
            containsSub (lowerStr (cellOf r "file")) (lowerStr "LL") = true) ∧
      (("LL" : String) = "" →
        textFilter ⟨"file", [], []⟩ "LL" [[("file", some "Hello")]] =
          [[("file", some "Hello")]]) := by
  have h := textFilter_spec ⟨"file", [], []⟩ "file" "LL" [[("file", some "Hello")]]
    rfl (by decide)
  exact ⟨rfl, by decide, h.1, h.2⟩

/-! ## Claims C6, C8: determinism and frame -/

/-- C6: the filter/sort engine is deterministic — equal row sets,
configurations, filter states and sort keys/directions produce identical
output sequences. -/
theorem produceView_deterministic (cfg₁ cfg₂ : Config) (sn₁ sn₂ : String)
    (tf₁ tf₂ : TagFilters) (sf₁ sf₂ sd₁ sd₂ : String) (d₁ d₂ : List Row)
    (hcfg : cfg₁ = cfg₂) (hsn : sn₁ = sn₂) (htf : tf₁ = tf₂) (hsf : sf₁ = sf₂)
    (hsd : sd₁ = sd₂) (hd : d₁ = d₂) :
    produceView cfg₁ sn₁ tf₁ sf₁ sd₁ d₁ = produceView cfg₂ sn₂ tf₂ sf₂ sd₂ d₂ := by
  subst hcfg; subst hsn; subst htf; subst hsf; subst hsd; subst hd; rfl

/-- C6 witness at a concrete state. -/
theorem produceView_deterministic_witness :
    produceView ⟨"file", ["tags"], []⟩ "x" [("tags", ⟨["a"], []⟩)] "Date" "asc"
        [[("file", some "x1")]] =
      produceView ⟨"file", ["tags"], []⟩ "x" [("tags", ⟨["a"], []⟩)] "Date" "asc"
        [[("file", some "x1")]] :=
  produceView_deterministic _ _ _ _ _ _ _ _ _ _ _ _ rfl rfl rfl rfl rfl rfl

/-- C8: the filtering effect does not modify its input: it starts from the
copy `[...data]` and only writes `filteredData`, so after the run the loaded
row set is unchanged — the same rows, with the same field values, in the
same order. -/
theorem filterEffect_preserves_data (st : AppState) :
    (filterEffect st).data = st.data := rfl

/-! ## Claim C9 (corrected): null/missing taggable cells -/

/-- Lowercasing is length-preserving, so only `""` lowercases to `""`. -/
theorem lowerStr_eq_empty_iff (v : String) : lowerStr v = "" ↔ v = "" := by
  constructor
  · intro h
    have hd : (lowerStr v).data = ("" : String).data := by rw [h]
    have h1 : toLowerL v.data = [] := by simpa [lowerStr] using hd
    have h2 : v.data = [] := by simpa [toLowerL] using h1
    cases v
    simp_all
  · intro h
    subst h
    rfl

/-- C9 counterexample: the claim says any non-empty include set removes a
row whose taggable cell is null/missing, but the include set `[""]` is
non-empty and keeps such a row (its split value list is exactly `[""]`). -/
theorem nullCell_include_counterexample :
    rowGet ([] : Row) "tags" = none ∧
    (([""] : List String) ≠ []) ∧
    applyTagFilters [("tags", FilterState.mk [""] [])] [([] : Row)] = [([] : Row)] := by
  decide

/-- C9 amended: a row whose value for a taggable column is null or missing
is treated as having the single value `""` for that column; an include set
on that column containing at least one non-empty value removes the row, and
an exclude set on that column removes the row only if it contains a value
that trims/lowercases to the empty string. -/
theorem nullCell_taggable_amended (r : Row) (col : String) (h : rowGet r col = none) :
    splitVals (cellOf r col) = [""] ∧
    (∀ inc rows, (∃ v ∈ inc, v ≠ "") → r ∉ includeStep col inc rows) ∧
    (∀ exc rows, r ∉ excludeStep col exc rows → r ∈ rows →
      ∃ v ∈ exc, String.mk (toLowerL (trimL v.data)) = "") := by
  have hcell : cellOf r col = "" := by simp [cellOf, h]
  have hsplit : splitVals (cellOf r col) = [""] := by rw [hcell]; decide
  refine ⟨hsplit, ?_, ?_⟩
  · rintro inc rows ⟨v, hv, hvne⟩ hmem
    have hne : inc ≠ [] := by
      intro he; subst he; exact absurd hv (List.not_mem_nil v)
    have hp := ((mem_includeStep col inc rows r).mp hmem).2 hne
    have hall := (includePass_iff inc (cellOf r col)).mp hp v hv
    rw [hsplit] at hall
    have : lowerStr v = "" := by simpa using hall
    exact hvne ((lowerStr_eq_empty_iff v).mp this)
  · intro exc rows hnot hr
    by_cases hne : exc = []
    · subst hne
      exact absurd ((mem_excludeStep col [] rows r).mpr ⟨hr, by simp⟩) hnot
    · by_cases hp : excludePass exc (cellOf r col) = true
      · exact absurd ((mem_excludeStep col exc rows r).mpr ⟨hr, fun _ => hp⟩) hnot
      · have : ¬ ∀ v ∈ exc, lowerStr v ∉ splitVals (cellOf r col) := by
          intro hall
          exact hp ((excludePass_iff exc (cellOf r col)).mpr hall)
        push_neg at this
        obtain ⟨v, hv, hvmem⟩ := this
        rw [hsplit] at hvmem
        have hvl : lowerStr v = "" := by simpa using hvmem
        have hve : v = "" := (lowerStr_eq_empty_iff v).mp hvl
        subst hve
        exact ⟨"", hv, rfl⟩

/-- C9 amended witness at the empty row. -/
theorem nullCell_taggable_amended_witness :
    rowGet ([] : Row) "tags" = none ∧
      (splitVals (cellOf ([] : Row) "tags") = [""] ∧
      (∀ inc rows, (∃ v ∈ inc, v ≠ "") → ([] : Row) ∉ includeStep "tags" inc rows) ∧
      (∀ exc rows, ([] : Row) ∉ excludeStep "tags" exc rows → ([] : Row) ∈ rows →
        ∃ v ∈ exc, String.mk (toLowerL (trimL v.data)) = "")) :=
  ⟨by decide, nullCell_taggable_amended [] "tags" (by decide)⟩

/-! ## Claim C4: the typed comparator refines the spec-side comparison -/

/-- `val || "1970-01-01"` agrees with the spec-side date-input fallback. -/
theorem jsOr_eq_specDateInput (v : Option String) :
    jsOr v "1970-01-01" = specDateInput v := by
  cases v with
  | none => rfl
  | some s =>
    by_cases h : s = "" <;> simp [jsOr, specDateInput, h]

/-- The `<`/`>` if-chain on date values computes `cmpDate`. -/
theorem svLt_date_cmp (x y : Option Int) :
    (if svLt (.date x) (.date y) then (-1 : Int)
      else if svLt (.date y) (.date x) then 1 else 0) = cmpDate x y := by
  cases x <;> cases y <;> simp [svLt, cmpDate]

/-- The `<`/`>` if-chain on numeric values computes `cmpInt`. -/
theorem svLt_num_cmp (x y : Int) :
    (if svLt (.num x) (.num y) then (-1 : Int)
      else if svLt (.num y) (.num x) then 1 else 0) = cmpInt x y := by
  simp [svLt, cmpInt]

/-- The `<`/`>` if-chain on string values computes `cmpStr`. -/
theorem svLt_str_cmp (x y : String) :
    (if svLt (.str x) (.str y) then (-1 : Int)
      else if svLt (.str y) (.str x) then 1 else 0) = cmpStr x y := by
  simp [svLt, cmpStr]

/-- `val || ""` is just the null fallback on string-or-null values. -/
theorem jsOr_empty (v : Option String) : jsOr v "" = v.getD "" := by
  cases v with
  | none => rfl
  | some s =>
    by_cases h : s = "" <;> simp [jsOr, h]

/-- C4: the ascending comparator compares the two rows' values for the sort
field according to the declared type of that column — dates with the
`1970-01-01` null/empty fallback, numbers with non-numerics as `0`, booleans
as `1`/`0` by truthiness, and any other type as strings with null as `""`;
a sort field matching no configured column gets the default type `"text"`
and hence string comparison. -/
theorem rowCompare_spec :
    (∀ (cfg : Config) (sf : String) (a b : Row),
      rowCompare cfg sf "asc" a b =
        specCompare (colType cfg sf) (rowGet a sf) (rowGet b sf)) ∧
    (∀ (cfg : Config) (sf : String),
      cfg.columns.find? (fun c => c.field == sf) = none → colType cfg sf = "text") := by
  constructor
  · intro cfg sf a b
    unfold rowCompare sortKey
    set ty := colType cfg sf with hty
    set va := rowGet a sf with hva
    set vb := rowGet b sf with hvb
    by_cases hd : ty = "date"
    · simp only [getSortValue, specCompare, hd, beq_self_eq_true, if_pos, if_true,
        reduceIte, jsOr_eq_specDateInput]
      exact svLt_date_cmp _ _
    · by_cases hn : ty = "number"
      · simp only [getSortValue, specCompare, hn]
        simp only [show (("number" == "date") : Bool) = false from rfl,
          show ¬("number" = "date") from by decide,
          beq_self_eq_true, Bool.false_eq_true, if_false, if_true, reduceIte]
        exact svLt_num_cmp _ _
      · by_cases hb : ty = "boolean"
        · simp only [getSortValue, specCompare, hb]
          simp only [show (("boolean" == "date") : Bool) = false from rfl,
            show (("boolean" == "number") : Bool) = false from rfl,
            show ¬("boolean" = "date") from by decide,
            show ¬("boolean" = "number") from by decide,
            beq_self_eq_true, Bool.false_eq_true, if_false, if_true, reduceIte]
          exact svLt_num_cmp _ _
        · have hdb : ((ty == "date") : Bool) = false := by
            simp [hd]
          have hnb : ((ty == "number") : Bool) = false := by
            simp [hn]
          have hbb : ((ty == "boolean") : Bool) = false := by
            simp [hb]
          simp only [getSortValue, specCompare, hdb, hnb, hbb, hd, hn, hb,
            Bool.false_eq_true, if_false, reduceIte, jsOr_empty]
          exact svLt_str_cmp _ _
  · intro cfg sf h
    simp [colType, h]

/-- C4 witness: a concrete date-typed comparison, and the `"text"` default
for an unknown sort field. -/
theorem rowCompare_spec_witness :
    (rowCompare ⟨"", [], [⟨"Date", "date"⟩]⟩ "Date" "asc"
        [("Date", some "2020-05-01")] [("Date", some "2021-01-01")] =
      specCompare (colType ⟨"", [], [⟨"Date", "date"⟩]⟩ "Date")
        (rowGet [("Date", some "2020-05-01")] "Date")
        (rowGet [("Date", some "2021-01-01")] "Date")) ∧
    ((Config.mk "" [] []).columns.find? (fun c => c.field == "zzz") = none ∧
      colType ⟨"", [], []⟩ "zzz" = "text") := by
  refine ⟨rowCompare_spec.1 _ _ _ _, by decide, rowCompare_spec.2 ⟨"", [], []⟩ "zzz" (by decide)⟩

/-! ## Claim C10: taggable-filter state invariants -/

/-- Every element of `assocSet tf col f` is the written entry or an
original one. -/
theorem mem_assocSet (tf : TagFilters) (col : String) (f : FilterState) :
    ∀ p ∈ assocSet tf col f, p = (col, f) ∨ p ∈ tf := by
  induction tf with
  | nil =>
    intro p hp
    simp only [assocSet, List.mem_singleton] at hp
    exact Or.inl hp
  | cons q rest ih =>
    obtain ⟨c, f0⟩ := q
    intro p hp
    simp only [assocSet] at hp
    by_cases h : (c == col) = true
    · rw [if_pos h] at hp
      rcases List.mem_cons.mp hp with h1 | h1
      · exact Or.inl h1
      · exact Or.inr (List.mem_cons_of_mem _ h1)
    · rw [if_neg h] at hp
      rcases List.mem_cons.mp hp with h1 | h1
      · exact Or.inr (h1 ▸ List.mem_cons_self _ _)
      · rcases ih p h1 with h2 | h2
        · exact Or.inl h2
        · exact Or.inr (List.mem_cons_of_mem _ h2)

/-- Duplicate-freedom of one filter entry. -/
def fsNodup (f : FilterState) : Prop := f.inc.Nodup ∧ f.exc.Nodup

theorem filtersNodup_assocSet (tf : TagFilters) (col : String) (f : FilterState)
    (htf : FiltersNodup tf) (hf : fsNodup f) : FiltersNodup (assocSet tf col f) := by
  intro p hp
  rcases mem_assocSet tf col f p hp with h | h
  · subst h
    exact hf
  · exact htf p h

/-- The looked-up entry of a duplicate-free state is duplicate-free. -/
theorem lookupTF_nodup (tf : TagFilters) (col : String) (f : FilterState)
    (htf : FiltersNodup tf) (h : lookupTF tf col = some f) : fsNodup f := by
  unfold lookupTF at h
  cases hfind : tf.find? (fun p => p.1 == col) with
  | none => rw [hfind] at h; simp at h
  | some p =>
    rw [hfind] at h
    simp only [Option.map_some'] at h
    have hmem := List.mem_of_find?_eq_some hfind
    have hnd := htf p hmem
    have hpf : p.2 = f := Option.some.inj h
    exact hpf ▸ hnd

theorem nodup_append_single {l : List String} {v : String}
    (hl : l.Nodup) (hv : v ∉ l) : (l ++ [v]).Nodup := by
  rw [List.nodup_append]
  refine ⟨hl, List.nodup_singleton v, ?_⟩
  intro a ha hb
  simp only [List.mem_singleton] at hb
  subst hb
  exact hv ha

/-- `handleAddTaggableFilter` preserves duplicate-freedom (it never pushes a
value that is already present). -/
theorem handleAdd_nodup (tf : TagFilters) (col v ty : String)
    (htf : FiltersNodup tf) : FiltersNodup (handleAddTaggableFilter tf col v ty) := by
  unfold handleAddTaggableFilter
  by_cases hv : (v == "") = true
  · rw [if_pos hv]
    exact htf
  · rw [if_neg hv]
    have hfnd : fsNodup ((lookupTF tf col).getD ⟨[], []⟩) := by
      cases hl : lookupTF tf col with
      | none => exact ⟨List.nodup_nil, List.nodup_nil⟩
      | some f => exact lookupTF_nodup tf col f htf hl
    apply filtersNodup_assocSet tf col _ htf
    set f := (lookupTF tf col).getD ⟨[], []⟩ with hf
    by_cases h1 : (ty == "include" && !(f.inc.contains v)) = true
    · rw [if_pos h1]
      have hnv : v ∉ f.inc := by
        intro hmem
        have hc := (string_contains_iff f.inc v).mpr hmem
        rw [hc] at h1
        simp at h1
      exact ⟨nodup_append_single hfnd.1 hnv, hfnd.2⟩
    · rw [if_neg h1]
      by_cases h2 : (ty == "exclude" && !(f.exc.contains v)) = true
      · rw [if_pos h2]
        have hnv : v ∉ f.exc := by
          intro hmem
          have hc := (string_contains_iff f.exc v).mpr hmem
          rw [hc] at h2
          simp at h2
        exact ⟨hfnd.1, nodup_append_single hfnd.2 hnv⟩
      · rw [if_neg h2]
        exact hfnd

/-- `handleRemoveTaggableFilter` preserves duplicate-freedom. -/
theorem handleRemove_nodup (tf : TagFilters) (col v ty : String)
    (htf : FiltersNodup tf) : FiltersNodup (handleRemoveTaggableFilter tf col v ty) := by
  unfold handleRemoveTaggableFilter
  cases hl : lookupTF tf col with
  | none => exact htf
  | some f =>
    have hfnd := lookupTF_nodup tf col f htf hl
    apply filtersNodup_assocSet tf col _ htf
    by_cases h1 : (ty == "include") = true
    · rw [if_pos h1]
      exact ⟨hfnd.1.filter _, hfnd.2⟩
    · rw [if_neg h1]
      exact ⟨hfnd.1, hfnd.2.filter _⟩

/-- Writing back the entry that is already stored is a no-op. -/
theorem assocSet_lookup_self (tf : TagFilters) (col : String) (f : FilterState)
    (h : lookupTF tf col = some f) : assocSet tf col f = tf := by
  induction tf with
  | nil => simp [lookupTF] at h
  | cons q rest ih =>
    obtain ⟨c, f0⟩ := q
    unfold lookupTF at h
    rw [List.find?_cons] at h
    by_cases hc : (c == col) = true
    · simp only [hc, cond_true, Option.map_some'] at h
      have hcc : c = col := by simpa using hc
      have hff : f0 = f := by simpa using h
      simp [assocSet, hc, hcc, hff]
    · simp only [Bool.not_eq_true] at hc
      simp only [hc, cond_false] at h
      have := ih h
      simp [assocSet, hc, this]

/-- Looking up the column just written returns the written entry. -/
theorem lookupTF_assocSet (tf : TagFilters) (col : String) (f : FilterState) :
    lookupTF (assocSet tf col f) col = some f := by
  induction tf with
  | nil => simp [assocSet, lookupTF]
  | cons q rest ih =>
    obtain ⟨c, f0⟩ := q
    by_cases hc : (c == col) = true
    · simp [assocSet, hc, lookupTF]
    · simp only [assocSet, hc, if_false, Bool.false_eq_true, reduceIte]
      unfold lookupTF
      rw [List.find?_cons]
      simp only [hc, cond_false, Bool.false_eq_true, reduceIte]
      exact ih

/-- Invariant preservation over an arbitrary interaction sequence. -/
theorem applyFilterOps_nodup (ops : List FilterOp) (tf : TagFilters)
    (htf : FiltersNodup tf) : FiltersNodup (applyFilterOps ops tf) := by
  induction ops generalizing tf with
  | nil => exact htf
  | cons op rest ih =>
    apply ih
    cases op with
    | add c v t => exact handleAdd_nodup tf c v t htf
    | remove c v t => exact handleRemove_nodup tf c v t htf

/-- C10: from the initial (all-empty) state every interaction sequence
keeps the per-column include and exclude lists duplicate-free; adding an
already-present value leaves the state unchanged; adding a falsy (empty)
value is ignored; and removing a value removes every occurrence of it from
the targeted list while leaving the other list untouched. -/
theorem taggableFilters_invariant :
    (∀ (cols : List String) (ops : List FilterOp),
      FiltersNodup (applyFilterOps ops (initFilters cols))) ∧
    (∀ (tf : TagFilters) (col v : String) (f : FilterState),
      lookupTF tf col = some f →
      (v ∈ f.inc → handleAddTaggableFilter tf col v "include" = tf) ∧
      (v ∈ f.exc → handleAddTaggableFilter tf col v "exclude" = tf)) ∧
    (∀ (tf : TagFilters) (col ty : String),
      handleAddTaggableFilter tf col "" ty = tf) ∧
    (∀ (tf : TagFilters) (col v : String) (f : FilterState),
      lookupTF tf col = some f →
      (∃ g, lookupTF (handleRemoveTaggableFilter tf col v "include") col = some g ∧
        v ∉ g.inc ∧ g.exc = f.exc) ∧
      (∃ g, lookupTF (handleRemoveTaggableFilter tf col v "exclude") col = some g ∧
        v ∉ g.exc ∧ g.inc = f.inc)) := by
  refine ⟨?_, ?_, ?_, ?_⟩
  · intro cols ops
    apply applyFilterOps_nodup
    intro p hp
    simp only [initFilters, List.mem_map] at hp
    obtain ⟨c, _, hc⟩ := hp
    rw [← hc]
    exact ⟨List.nodup_nil, List.nodup_nil⟩
  · intro tf col v f hl
    constructor
    · intro hv
      unfold handleAddTaggableFilter
      by_cases hve : (v == "") = true
      · rw [if_pos hve]
      · rw [if_neg hve]
        rw [hl]
        simp only [Option.getD_some]
        have hcont : f.inc.contains v = true := (string_contains_iff f.inc v).mpr hv
        simp only [hcont, Bool.not_true, Bool.and_false, Bool.false_eq_true, reduceIte,
          show (("include" == "exclude") : Bool) = false from rfl, Bool.false_and]
        exact assocSet_lookup_self tf col f hl
    · intro hv
      unfold handleAddTaggableFilter
      by_cases hve : (v == "") = true
      · rw [if_pos hve]
      · rw [if_neg hve]
        rw [hl]
        simp only [Option.getD_some]
        have hcont : f.exc.contains v = true := (string_contains_iff f.exc v).mpr hv
        simp only [hcont, Bool.not_true, Bool.and_false, Bool.false_eq_true, reduceIte,
          show (("exclude" == "include") : Bool) = false from rfl, Bool.false_and]
        exact assocSet_lookup_self tf col f hl
  · intro tf col ty
    unfold handleAddTaggableFilter
    rw [if_pos (by rfl)]
  · intro tf col v f hl
    constructor
    · refine ⟨⟨f.inc.filter (fun x => x != v), f.exc⟩, ?_, ?_, rfl⟩
      · unfold handleRemoveTaggableFilter
        rw [hl]
        simp only [show (("include" == "include") : Bool) = true from rfl, if_true, reduceIte]
        exact lookupTF_assocSet tf col _
      · intro hmem
        have := (List.mem_filter.mp hmem).2
        simp at this
    · refine ⟨⟨f.inc, f.exc.filter (fun x => x != v)⟩, ?_, ?_, rfl⟩
      · unfold handleRemoveTaggableFilter
        rw [hl]
        simp only [show (("exclude" == "include") : Bool) = false from rfl, if_false,
          Bool.false_eq_true, reduceIte]
        exact lookupTF_assocSet tf col _
      · intro hmem
        have := (List.mem_filter.mp hmem).2
        simp at this

/-- C10 witness on a concrete filter state. -/
theorem taggableFilters_invariant_witness :
    FiltersNodup (applyFilterOps [FilterOp.add "tags" "a" "include",
        FilterOp.add "tags" "a" "include", FilterOp.remove "tags" "a" "include"]
      (initFilters ["tags"])) ∧
    (lookupTF [("tags", FilterState.mk ["a"] [])] "tags" = some ⟨["a"], []⟩ ∧
      ("a" ∈ (FilterState.mk ["a"] []).inc →
        handleAddTaggableFilter [("tags", FilterState.mk ["a"] [])] "tags" "a" "include" =
          [("tags", FilterState.mk ["a"] [])])) ∧
    handleAddTaggableFilter [("tags", FilterState.mk ["a"] [])] "tags" "" "include" =
      [("tags", FilterState.mk ["a"] [])] ∧
    (∃ g, lookupTF (handleRemoveTaggableFilter [("tags", FilterState.mk ["a", "b"] [])]
        "tags" "a" "include") "tags" = some g ∧
      "a" ∉ g.inc ∧ g.exc = (FilterState.mk ["a", "b"] []).exc) := by
  have h := taggableFilters_invariant
  refine ⟨h.1 ["tags"] _, ⟨by decide,
    (h.2.1 [("tags", FilterState.mk ["a"] [])] "tags" "a" ⟨["a"], []⟩ (by decide)).1⟩,
    h.2.2.1 [("tags", FilterState.mk ["a"] [])] "tags" "include",
    (h.2.2.2 [("tags", FilterState.mk ["a", "b"] [])] "tags" "a" ⟨["a", "b"], []⟩
      (by decide)).1⟩

/-! ## Claim C7: sort direction -/

/-- The modelled `<` on sort values is asymmetric. -/
theorem svLt_asymm (a b : SortValue) (h1 : svLt a b = true) (h2 : svLt b a = true) :
    False := by
  cases a with
  | date x =>
    cases b with
    | date y =>
      cases x <;> cases y <;> simp [svLt] at h1 h2
      omega
    | num y => simp [svLt] at h1
    | str y => simp [svLt] at h1
  | num x =>
    cases b with
    | date y => simp [svLt] at h1
    | num y =>
      simp [svLt] at h1 h2
      omega
    | str y => simp [svLt] at h1
  | str x =>
    cases b with
    | date y => simp [svLt] at h1
    | num y => simp [svLt] at h1
    | str y =>
      simp [svLt] at h1 h2
      exact absurd h2 (lt_asymm h1)

/-- The modelled `<` on sort values is transitive. -/
theorem svLt_trans (a b c : SortValue) (h1 : svLt a b = true) (h2 : svLt b c = true) :
    svLt a c = true := by
  cases a with
  | date x =>
    cases b with
    | date y =>
      cases c with
      | date z =>
        cases x <;> cases y <;> cases z <;> simp [svLt] at h1 h2 ⊢
        omega
      | num z => simp [svLt] at h2
      | str z => simp [svLt] at h2
    | num y => simp [svLt] at h1
    | str y => simp [svLt] at h1
  | num x =>
    cases b with
    | date y => simp [svLt] at h1
    | num y =>
      cases c with
      | date z => simp [svLt] at h2
      | num z =>
        simp [svLt] at h1 h2 ⊢
        omega
      | str z => simp [svLt] at h2
    | str y => simp [svLt] at h1
  | str x =>
    cases b with
    | date y => simp [svLt] at h1
    | num y => simp [svLt] at h1
    | str y =>
      cases c with
      | date z => simp [svLt] at h2
      | num z => simp [svLt] at h2
      | str z =>
        simp [svLt] at h1 h2 ⊢
        exact lt_trans h1 h2

/-- The ascending comparator moves `a` strictly before `b` exactly when
`a`'s key is strictly below `b`'s. -/
theorem rowCompare_asc_lt (cfg : Config) (sf : String) (a b : Row) :
    decide (rowCompare cfg sf "asc" a b < 0) =
      svLt (sortKey cfg sf a) (sortKey cfg sf b) := by
  unfold rowCompare
  by_cases h1 : svLt (sortKey cfg sf a) (sortKey cfg sf b) = true
  · simp [h1]
  · by_cases h2 : svLt (sortKey cfg sf b) (sortKey cfg sf a) = true
    · simp [h1, h2]
    · simp [h1, h2]

/-- The descending comparator moves `a` strictly before `b` exactly when
`b`'s key is strictly below `a`'s. -/
theorem rowCompare_desc_lt (cfg : Config) (sf : String) (a b : Row) :
    decide (rowCompare cfg sf "desc" a b < 0) =
      svLt (sortKey cfg sf b) (sortKey cfg sf a) := by
  unfold rowCompare
  by_cases h1 : svLt (sortKey cfg sf a) (sortKey cfg sf b) = true
  · have h2 : ¬ svLt (sortKey cfg sf b) (sortKey cfg sf a) = true :=
      fun h2 => svLt_asymm _ _ h1 h2
    simp [h1, h2]
  · by_cases h2 : svLt (sortKey cfg sf b) (sortKey cfg sf a) = true
    · simp [h1, h2]
    · simp [h1, h2]

/-- The ascending comparator separates two rows exactly when their keys are
strictly ordered one way or the other. -/
theorem rowCompare_ne_zero_iff (cfg : Config) (sf : String) (a b : Row) :
    rowCompare cfg sf "asc" a b ≠ 0 ↔
      (svLt (sortKey cfg sf a) (sortKey cfg sf b) = true ∨
        svLt (sortKey cfg sf b) (sortKey cfg sf a) = true) := by
  unfold rowCompare
  by_cases h1 : svLt (sortKey cfg sf a) (sortKey cfg sf b) = true
  · simp [h1]
  · by_cases h2 : svLt (sortKey cfg sf b) (sortKey cfg sf a) = true
    · simp [h1, h2]
    · simp [h1, h2]

/-- Membership in an ordered insertion. -/
theorem mem_insertOrd {α : Type} (lt : α → α → Bool) (x : α) (l : List α) (a : α) :
    a ∈ insertOrd lt x l ↔ a = x ∨ a ∈ l := by
  rw [(insertOrd_perm lt x l).mem_iff]
  simp

/-- Inserting into a strictly sorted list keeps it strictly sorted, given
transitivity and comparability of the new element with the present ones. -/
theorem pairwise_insertOrd {α : Type} (lt : α → α → Bool) (x : α) (l : List α)
    (htr : ∀ a b c, lt a b = true → lt b c = true → lt a c = true)
    (hs : l.Pairwise (fun a b => lt a b = true))
    (hcomp : ∀ y ∈ l, lt x y = true ∨ lt y x = true) :
    (insertOrd lt x l).Pairwise (fun a b => lt a b = true) := by
  induction l with
  | nil => simp [insertOrd]
  | cons y ys ih =>
    simp only [insertOrd]
    by_cases h : lt y x = true
    · rw [if_pos h]
      refine List.Pairwise.cons ?_ ?_
      · intro z hz
        rcases (mem_insertOrd _ x ys z).mp hz with hzx | hzy
        · subst hzx
          exact h
        · exact (List.pairwise_cons.mp hs).1 z hzy
      · exact ih (List.pairwise_cons.mp hs).2
          (fun z hz => hcomp z (List.mem_cons_of_mem _ hz))
    · rw [if_neg h]
      have hxy : lt x y = true := by
        rcases hcomp y (List.mem_cons_self _ _) with hc | hc
        · exact hc
        · exact absurd hc h
      refine List.Pairwise.cons ?_ hs
      intro z hz
      rcases List.mem_cons.mp hz with hzy | hzys
      · subst hzy
        exact hxy
      · exact htr x y z hxy ((List.pairwise_cons.mp hs).1 z hzys)

/-- The insertion sort of a pairwise-comparable list is strictly sorted. -/
theorem pairwise_insertSort {α : Type} (lt : α → α → Bool) (l : List α)
    (htr : ∀ a b c, lt a b = true → lt b c = true → lt a c = true)
    (hcomp : l.Pairwise (fun a b => lt a b = true ∨ lt b a = true)) :
    (insertSort lt l).Pairwise (fun a b => lt a b = true) := by
  induction l with
  | nil => simp [insertSort]
  | cons x xs ih =>
    simp only [insertSort]
    apply pairwise_insertOrd lt x _ htr (ih (List.pairwise_cons.mp hcomp).2)
    intro y hy
    exact (List.pairwise_cons.mp hcomp).1 y ((mem_insertSort _ xs y).mp hy)

/-- Two strictly sorted lists that are permutations of each other are equal
(the strict relation being asymmetric). -/
theorem eq_of_perm_of_pairwise {α : Type} (lt : α → α → Bool)
    (hasym : ∀ a b, lt a b = true → lt b a = true → False) :
    ∀ (l₁ l₂ : List α), l₁.Perm l₂ →
      l₁.Pairwise (fun a b => lt a b = true) →
      l₂.Pairwise (fun a b => lt a b = true) → l₁ = l₂ := by
  intro l₁
  induction l₁ with
  | nil =>
    intro l₂ hp _ _
    exact (hp.symm.eq_nil).symm
  | cons x t₁ ih =>
    intro l₂ hp h1 h2
    cases l₂ with
    | nil => exact absurd hp.eq_nil (by simp)
    | cons y t₂ =>
      by_cases hxy : x = y
      · subst hxy
        have hperm := hp.cons_inv
        rw [ih t₂ hperm (List.pairwise_cons.mp h1).2 (List.pairwise_cons.mp h2).2]
      · have hxmem : x ∈ y :: t₂ := hp.subset (List.mem_cons_self _ _)
        have hymem : y ∈ x :: t₁ := hp.symm.subset (List.mem_cons_self _ _)
        have hxt₂ : x ∈ t₂ := by
          rcases List.mem_cons.mp hxmem with h | h
          · exact absurd h hxy
          · exact h
        have hyt₁ : y ∈ t₁ := by
          rcases List.mem_cons.mp hymem with h | h
          · exact absurd h.symm hxy
          · exact h
        have hlt1 : lt x y = true := (List.pairwise_cons.mp h1).1 y hyt₁
        have hlt2 : lt y x = true := (List.pairwise_cons.mp h2).1 x hxt₂
        exact absurd hlt2 (fun h => hasym x y hlt1 h)

/-- C7 counterexample: on a date column, the cells `"garbage"` (an Invalid
Date, `NaN` time value) and `"2020-01-01"` give pairwise distinct sort-key
values, yet the comparator returns `0` on the pair in both directions (a
`NaN` comparison is false both ways), the stable sort keeps the original
order under both directions, and the descending order is not the reverse of
the ascending one — so the claim fails as stated. -/
theorem sort_reverse_counterexample :
    ([[("Date", some "garbage")], [("Date", some "2020-01-01")]] : List Row).Pairwise
      (fun a b => sortKey ⟨"", [], [⟨"Date", "date"⟩]⟩ "Date" a ≠
        sortKey ⟨"", [], [⟨"Date", "date"⟩]⟩ "Date" b) ∧
    sortRows ⟨"", [], [⟨"Date", "date"⟩]⟩ "Date" "desc"
        [[("Date", some "garbage")], [("Date", some "2020-01-01")]] ≠
      (sortRows ⟨"", [], [⟨"Date", "date"⟩]⟩ "Date" "asc"
        [[("Date", some "garbage")], [("Date", some "2020-01-01")]]).reverse := by
  decide

/-- C7 (amended): for every pair of rows, the descending comparator is the
negation of the ascending one; and on a row set whose sort-key values are
pairwise distinct and pairwise comparable — equivalently, whose pairs the
ascending comparator separates (returns nonzero on), which rules out
Invalid-Date keys, the only keys that compare equal without being equal —
sorting descending yields exactly the reverse of the ascending order. -/
theorem sort_direction_spec :
    (∀ (cfg : Config) (sf : String) (a b : Row),
      rowCompare cfg sf "desc" a b = - rowCompare cfg sf "asc" a b) ∧
    (∀ (cfg : Config) (sf : String) (rows : List Row),
      rows.Pairwise (fun a b => rowCompare cfg sf "asc" a b ≠ 0) →
      sortRows cfg sf "desc" rows = (sortRows cfg sf "asc" rows).reverse) := by
  constructor
  · intro cfg sf a b
    unfold rowCompare
    by_cases h1 : svLt (sortKey cfg sf a) (sortKey cfg sf b) = true
    · simp [h1]
    · by_cases h2 : svLt (sortKey cfg sf b) (sortKey cfg sf a) = true
      · simp [h1, h2]
      · simp [h1, h2]
  · intro cfg sf rows h
    have hfa : (fun a b : Row => decide (rowCompare cfg sf "asc" a b < 0)) =
        (fun a b : Row => svLt (sortKey cfg sf a) (sortKey cfg sf b)) :=
      funext fun a => funext fun b => rowCompare_asc_lt cfg sf a b
    have hfd : (fun a b : Row => decide (rowCompare cfg sf "desc" a b < 0)) =
        (fun a b : Row => svLt (sortKey cfg sf b) (sortKey cfg sf a)) :=
      funext fun a => funext fun b => rowCompare_desc_lt cfg sf a b
    have hcomp : rows.Pairwise (fun a b =>
        svLt (sortKey cfg sf a) (sortKey cfg sf b) = true ∨
        svLt (sortKey cfg sf b) (sortKey cfg sf a) = true) :=
      h.imp (fun hab => (rowCompare_ne_zero_iff cfg sf _ _).mp hab)
    set lt : Row → Row → Bool :=
      fun a b => svLt (sortKey cfg sf a) (sortKey cfg sf b) with hlt
    have htr : ∀ a b c : Row, lt a b = true → lt b c = true → lt a c = true :=
      fun a b c h1 h2 => svLt_trans _ _ _ h1 h2
    set lt' : Row → Row → Bool := fun a b => lt b a with hlt'
    have htr' : ∀ a b c : Row, lt' a b = true → lt' b c = true → lt' a c = true :=
      fun a b c h1 h2 => htr c b a h2 h1
    have hasym' : ∀ a b : Row, lt' a b = true → lt' b a = true → False :=
      fun a b h1 h2 => svLt_asymm _ _ h2 h1
    have hA : sortRows cfg sf "asc" rows = insertSort lt rows := by
      unfold sortRows
      rw [hfa]
    have hD : sortRows cfg sf "desc" rows = insertSort lt' rows := by
      unfold sortRows
      rw [hfd]
    have hsortA : (insertSort lt rows).Pairwise (fun a b => lt a b = true) :=
      pairwise_insertSort lt rows htr hcomp
    have hsortD : (insertSort lt' rows).Pairwise (fun a b => lt' a b = true) :=
      pairwise_insertSort lt' rows htr' (hcomp.imp Or.symm)
    have hrevA : ((insertSort lt rows).reverse).Pairwise
        (fun a b => lt' a b = true) := by
      rw [List.pairwise_reverse]
      exact hsortA
    have hperm : (insertSort lt' rows).Perm ((insertSort lt rows).reverse) :=
      ((insertSort_perm _ rows).trans (insertSort_perm _ rows).symm).trans
        (List.reverse_perm _).symm
    rw [hA, hD]
    exact eq_of_perm_of_pairwise lt' hasym' _ _ hperm hsortD hrevA

/-- C7 witness on two rows with distinct (and comparable) numeric sort keys. -/
theorem sort_direction_spec_witness :
    (rowCompare ⟨"", [], [⟨"n", "number"⟩]⟩ "n" "desc"
        [("n", some "1")] [("n", some "2")] =
      - rowCompare ⟨"", [], [⟨"n", "number"⟩]⟩ "n" "asc"
        [("n", some "1")] [("n", some "2")]) ∧
    ([[("n", some "1")], [("n", some "2")]] : List Row).Pairwise
      (fun a b => rowCompare ⟨"", [], [⟨"n", "number"⟩]⟩ "n" "asc" a b ≠ 0) ∧
    sortRows ⟨"", [], [⟨"n", "number"⟩]⟩ "n" "desc"
        [[("n", some "1")], [("n", some "2")]] =
      (sortRows ⟨"", [], [⟨"n", "number"⟩]⟩ "n" "asc"
        [[("n", some "1")], [("n", some "2")]]).reverse := by
  refine ⟨sort_direction_spec.1 _ _ _ _, ?_, ?_⟩
  · decide
  · exact sort_direction_spec.2 _ _ _ (by decide)
